import Mathlib

/-!
Shallow embedding of `toyterm` (src/main.rs): the terminal grid `Term<T>`
with its operations `carriage_return`, `line_feed`, `push_element`,
`rotate_buffer`, the `Default` construction, and the PTY branch of the
multiplexer loop `run`.  Machine integers (`u32`, `usize`) are modelled as
`Nat`: every arithmetic step the claims touch stays far below `2^32`
(coordinates are clamped to `width = 80` / `height = 25`), and
`saturating_sub` on `u32` coincides with truncated `Nat` subtraction.
`Vec<Vec<Option<T>>>` is `List (List (Option T))`; `Vec::remove(0)` on a
buffer that the shape invariant keeps non-empty is `List.tail`.
-/

namespace Toyterm

/-- The `Error` enum of src/main.rs (lines 27-34). -/
inductive Error where
  | CantOpenDisplay
  | CantLoadBgColor
  | CantLoadFgColor
  | CantSpawn
  | CantPushElement
deriving Repr, DecidableEq

/-- Rust `struct Term<T>` (src/main.rs lines 81-90): fixed dimensions, cursor
`(x, y)`, and the row buffer. -/
structure Term (T : Type) where
  width : Nat
  height : Nat
  x : Nat
  y : Nat
  buffers : List (List (Option T))
deriving Repr, DecidableEq

/-- Rust `Term::carriage_return` (lines 109-111): `self.x = 0`. -/
def Term.carriage_return {T : Type} (t : Term T) : Term T :=
  { t with x := 0 }

/-- Rust `Term::rotate_buffer(n)` (lines 144-157): `n` times, remove the first
row and push a fresh row of `width` unset cells.  The Rust function returns
`Result` but always `Ok(())`, and its caller discards the result, so it is
modelled as a plain state transformer. -/
def Term.rotate_buffer {T : Type} : Term T → Nat → Term T
  | t, 0 => t
  | t, n + 1 =>
      Term.rotate_buffer
        { t with buffers := t.buffers.tail ++ [List.replicate t.width (none : Option T)] } n

/-- Rust `Term::line_feed` (lines 113-121): `self.y += 1`; if `y >= height`,
rotate the buffer once and clamp `y` to `height.saturating_sub(1)`. -/
def Term.line_feed {T : Type} (t : Term T) : Term T :=
  let t1 : Term T := { t with y := t.y + 1 }
  if t1.height ≤ t1.y then
    let t2 := t1.rotate_buffer 1
    { t2 with y := t2.height - 1 }
  else t1

/-- Rust `Term::push_element` (lines 123-142): write `c` at the cursor cell if
`buffers[y][x]` exists (otherwise `Err(CantPushElement)`), advance `x`; on
reaching `width`, reset `x` to 0 and perform a line feed. -/
def Term.push_element {T : Type} (t : Term T) (c : Option T) : Except Error (Term T) :=
  match t.buffers[t.y]? with
  | some row =>
      if t.x < row.length then
        if t.width ≤ t.x + 1 then
          Except.ok (Term.line_feed
            { t with buffers := t.buffers.set t.y (row.set t.x c), x := 0 })
        else
          Except.ok { t with buffers := t.buffers.set t.y (row.set t.x c), x := t.x + 1 }
      else Except.error Error.CantPushElement
  | none => Except.error Error.CantPushElement

/-- Rust `impl Default for Term<T>` (lines 160-184): width 80, height 25, cursor
at the origin, and 25 rows of 80 unset cells (the Rust `for` loops pushing
`None` build exactly `replicate`d rows). -/
def Term.mkDefault (T : Type) : Term T :=
  { width := 80
    height := 25
    x := 0
    y := 0
    buffers := List.replicate 25 (List.replicate 80 (none : Option T)) }

/-- Rust `Term::new` (lines 93-95): `Self::default()`. -/
def Term.new (T : Type) : Term T :=
  Term.mkDefault T

/-- The grid invariants stated by the spec: shape (`rows.length == height`,
every row of length `width`) and cursor bounds (`x < width`, `y < height`). -/
def Term.Wf {T : Type} (t : Term T) : Prop :=
  t.buffers.length = t.height ∧ (∀ row ∈ t.buffers, row.length = t.width) ∧
    t.x < t.width ∧ t.y < t.height

instance {T : Type} (t : Term T) : Decidable t.Wf := by
  unfold Term.Wf
  infer_instance

/-! ## The multiplexer loop `run` (src/main.rs lines 449-491)

One loop iteration is driven by what `select(2)` reports and, on PTY
readability, by what `unistd::read` returns for the single-byte buffer.
On Linux a PTY master signals end-of-stream by a *failing* read (`EIO`
once the slave side is closed), so `read` either yields a byte or fails
with an `errno`; the code only inspects `.is_ok()`. -/

/-- Result of `unistd::read(pty.master(), &mut buf)` for the 1-byte buffer:
`ok b` means the read succeeded and `buf[0] = b`; `err errno` means the
read failed (end-of-stream on a Linux PTY master arrives as `errno = EIO`). -/
inductive ReadResult where
  | ok (b : Nat)
  | err (errno : Nat)
deriving Repr, DecidableEq

/-- What one `select` wakeup presents to the loop body: the PTY master is
readable (with the outcome of the subsequent read), the X11 descriptor is
readable, neither is flagged (the `Ok(_) => {}` arm), or `select` itself
failed with an `errno` (the `Err(e)` arm). -/
inductive Event where
  | ptyReady (r : ReadResult)
  | xReady
  | neitherReady
  | selectFailed (errno : Nat)
deriving Repr, DecidableEq

/-- Errors that escape `run` via `?` or the explicit `Err` return. -/
inductive RunError where
  | grid (e : Error)
  | os (errno : Nat)
deriving Repr, DecidableEq

/-- Status of the loop after consuming one event (or a finite trace):
still looping with an updated grid, returned `Ok(())`, or returned an
error. -/
inductive RunOutcome where
  | running (t : Term Nat)
  | exitOk
  | exitErr (e : RunError)
deriving Repr, DecidableEq

/-- One iteration of the `loop` body in `run`.  The PTY branch (lines
460-475): a failing read returns `Ok(())`; a byte `b'\r'` (13) invokes
`carriage_return`, `b'\n'` (10) invokes `line_feed`, any other byte is
pushed (its `push_element` error propagating via `?`).  The X11 branch
(lines 476-486) drains events, touching only the X server and PTY writes,
never the grid.  A failing `select` returns `Err` (line 488). -/
def runStep (t : Term Nat) : Event → RunOutcome
  | .ptyReady (.err _) => .exitOk
  | .ptyReady (.ok b) =>
      match b with
      | 13 => .running t.carriage_return
      | 10 => .running t.line_feed
      | c =>
          match t.push_element (some c) with
          | .ok t1 => .running t1
          | .error e => .exitErr (.grid e)
  | .xReady => .running t
  | .neitherReady => .running t
  | .selectFailed errno => .exitErr (.os errno)

/-- Running the loop over a finite trace of select wakeups: iterate `runStep` until
the loop returns, or report the grid state still in flight when the trace
is exhausted. -/
def run (t : Term Nat) : List Event → RunOutcome
  | [] => .running t
  | ev :: evs =>
      match runStep t ev with
      | .running t1 => run t1 evs
      | r => r

/-! ## Derived operation combinators used by the spec's laws -/

/-- Repeated line feeds: `n` consecutive `line_feed` calls (the spec's "scrolling by n rows is
n sequential calls"). -/
def Term.line_feeds {T : Type} : Term T → Nat → Term T
  | t, 0 => t
  | t, n + 1 => t.line_feed.line_feeds n

/-- Consecutive `push_element` calls with set cells, each call's error
propagating exactly as `?` does in the loop. -/
def Term.pushList {T : Type} : Term T → List T → Except Error (Term T)
  | t, [] => Except.ok t
  | t, c :: cs =>
      match t.push_element (some c) with
      | Except.ok t1 => t1.pushList cs
      | Except.error e => Except.error e

/-- The grid-mutating operations reachable from the multiplexer loop. -/
inductive Op (T : Type) where
  | push (c : Option T)
  | cr
  | lf

/-- Apply one operation.  A failing `push_element` leaves the grid as it
was: in the program that error aborts the loop through `?`, so no later
operation ever observes a state the failure could have produced. -/
def Term.applyOp {T : Type} (t : Term T) : Op T → Term T
  | .push c =>
      match t.push_element c with
      | .ok t1 => t1
      | .error _ => t
  | .cr => t.carriage_return
  | .lf => t.line_feed

/-- Apply a whole sequence of operations, oldest first. -/
def Term.steps {T : Type} (t : Term T) (ops : List (Op T)) : Term T :=
  ops.foldl Term.applyOp t

/-! ## Closed forms and invariant-preservation lemmas -/

/-- Rotating once replaces the buffer by its tail plus a fresh blank row. -/
theorem Term.rotate_buffer_one {T : Type} (t : Term T) :
    t.rotate_buffer 1 =
      { t with buffers := t.buffers.tail ++ [List.replicate t.width (none : Option T)] } := by
  rfl

/-- Closed form of `line_feed`: either a plain cursor move or a scroll. -/
theorem Term.line_feed_eq {T : Type} (t : Term T) :
    t.line_feed =
      if t.height ≤ t.y + 1 then
        { t with
            y := t.height - 1
            buffers := t.buffers.tail ++ [List.replicate t.width (none : Option T)] }
      else { t with y := t.y + 1 } := by
  by_cases h : t.height ≤ t.y + 1 <;>
    simp [Term.line_feed, Term.rotate_buffer, h]

/-- Rows of a buffer updated by `List.set` keep the uniform width. -/
theorem rows_width_set {T : Type} {l : List (List (Option T))} {w i : Nat}
    {r : List (Option T)} (hl : ∀ row ∈ l, row.length = w) (hr : r.length = w) :
    ∀ row ∈ l.set i r, row.length = w := by
  intro row hrow
  rcases List.mem_or_eq_of_mem_set hrow with h | h
  · exact hl _ h
  · subst h
    exact hr

/-- The operation `carriage_return` preserves the grid invariants. -/
theorem Term.wf_carriage_return {T : Type} {t : Term T} (h : t.Wf) :
    t.carriage_return.Wf := by
  obtain ⟨h1, h2, h3, h4⟩ := h
  exact ⟨h1, h2, Nat.lt_of_le_of_lt (Nat.zero_le _) h3, h4⟩

/-- The operation `line_feed` preserves the grid invariants. -/
theorem Term.wf_line_feed {T : Type} {t : Term T} (h : t.Wf) :
    t.line_feed.Wf := by
  obtain ⟨h1, h2, h3, h4⟩ := h
  rw [Term.line_feed_eq]
  split
  · refine ⟨?_, ?_, h3, ?_⟩
    · show (t.buffers.tail ++ [List.replicate t.width (none : Option T)]).length = t.height
      simp only [List.length_append, List.length_tail, List.length_singleton, h1]
      omega
    · intro row hrow
      rcases List.mem_append.mp hrow with hmem | hmem
      · exact h2 _ (List.mem_of_mem_tail hmem)
      · rw [List.mem_singleton.mp hmem]
        exact List.length_replicate _ _
    · show t.height - 1 < t.height
      omega
  · next hle =>
      exact ⟨h1, h2, h3, by show t.y + 1 < t.height; omega⟩

/-- A successful `push_element` preserves the grid invariants. -/
theorem Term.wf_push_element {T : Type} {t t1 : Term T} {c : Option T}
    (h : t.Wf) (hp : t.push_element c = Except.ok t1) : t1.Wf := by
  obtain ⟨h1, h2, h3, h4⟩ := h
  rcases hrow : t.buffers[t.y]? with _ | row
  · simp only [Term.push_element, hrow] at hp
    exact Except.noConfusion hp
  · have hrlen : row.length = t.width := h2 _ (List.getElem?_mem hrow)
    simp only [Term.push_element, hrow] at hp
    rw [if_pos (show t.x < row.length by omega)] at hp
    split at hp
    · cases hp
      exact Term.wf_line_feed
        ⟨by simpa using h1,
         fun r hr => rows_width_set h2 (by simp [hrlen]) r hr,
         by show (0 : Nat) < t.width
            omega,
         h4⟩
    · cases hp
      exact
        ⟨by simpa using h1,
         fun r hr => rows_width_set h2 (by simp [hrlen]) r hr,
         by show t.x + 1 < t.width
            omega,
         h4⟩

/-- The initial grid satisfies the invariants. -/
theorem Term.wf_new (T : Type) : (Term.new T).Wf := by
  refine ⟨by simp [Term.new, Term.mkDefault], ?_,
    by show (0 : Nat) < 80; decide, by show (0 : Nat) < 25; decide⟩
  intro row hrow
  rw [Term.new, Term.mkDefault] at hrow
  rw [List.eq_of_mem_replicate hrow]
  exact List.length_replicate _ _

/-- Every single operation preserves the grid invariants. -/
theorem Term.wf_applyOp {T : Type} {t : Term T} (h : t.Wf) (op : Op T) :
    (t.applyOp op).Wf := by
  cases op with
  | push c =>
      rcases hp : t.push_element c with e | t1 <;>
        simp only [Term.applyOp, hp]
      · exact h
      · exact Term.wf_push_element h hp
  | cr => exact Term.wf_carriage_return h
  | lf => exact Term.wf_line_feed h

/-- Every operation sequence preserves the grid invariants. -/
theorem Term.wf_steps {T : Type} (ops : List (Op T)) :
    ∀ {t : Term T}, t.Wf → (t.steps ops).Wf := by
  induction ops with
  | nil => exact fun h => h
  | cons op ops ih => exact fun h => ih (Term.wf_applyOp h op)

/-! ## Claim theorems -/

/-- C10: the initial grid produced by `Term::new` (via `Default`) has width
80, height 25, cursor at (0, 0), and every cell of every row unset. -/
theorem initial_grid_spec :
    (Term.new Nat).width = 80 ∧ (Term.new Nat).height = 25 ∧
      (Term.new Nat).x = 0 ∧ (Term.new Nat).y = 0 ∧
      (Term.new Nat).buffers.length = 25 ∧
      ∀ row ∈ (Term.new Nat).buffers, row.length = 80 ∧ ∀ c ∈ row, c = none := by
  refine ⟨rfl, rfl, rfl, rfl, by simp [Term.new, Term.mkDefault], ?_⟩
  intro row hrow
  rw [Term.new, Term.mkDefault] at hrow
  rw [List.eq_of_mem_replicate hrow]
  exact ⟨List.length_replicate _ _, fun c hc => List.eq_of_mem_replicate hc⟩

/-- C1: when the one-byte read from the PTY master fails (which is how a
Linux PTY master signals end-of-stream), `run` terminates and returns
`Ok(())`, not an error. -/
theorem run_eof_exits_ok (t : Term Nat) (errno : Nat) (evs : List Event) :
    run t (Event.ptyReady (ReadResult.err errno) :: evs) = RunOutcome.exitOk :=
  rfl

/-- C2 counterexample: a read failure with `errno = 9` (`EBADF`, an I/O
error that is not end-of-stream) does NOT propagate out of `run` as an
error — the loop returns success, contradicting the claim that every
non-EOF read failure terminates execution with an error. -/
theorem run_read_error_swallowed :
    run (Term.new Nat) [Event.ptyReady (ReadResult.err 9)] = RunOutcome.exitOk ∧
      run (Term.new Nat) [Event.ptyReady (ReadResult.err 9)] ≠
        RunOutcome.exitErr (RunError.os 9) :=
  ⟨rfl, by simp [run, runStep]⟩

/-- C2 amended: every read failure on the PTY master — end-of-stream or
any other I/O error alike — terminates `run` with success (the code only
tests `is_ok()` and cannot distinguish them); a failure of the multiplex
(`select`) call itself is the one that propagates out of the loop as an
error. -/
theorem run_read_failure_ok_select_failure_err (t : Term Nat) (errno : Nat)
    (evs : List Event) :
    run t (Event.ptyReady (ReadResult.err errno) :: evs) = RunOutcome.exitOk ∧
      run t (Event.selectFailed errno :: evs) =
        RunOutcome.exitErr (RunError.os errno) :=
  ⟨rfl, rfl⟩

/-- C3: each byte successfully read from the PTY master is classified by
the loop body — `b'\r'` (13) invokes exactly `carriage_return`, `b'\n'`
(10) invokes exactly `line_feed`, and any other byte is handed to
`push_element (some b)`, whose result is the entire effect on the grid. -/
theorem runStep_byte_classification (t : Term Nat) (b : Nat) :
    runStep t (Event.ptyReady (ReadResult.ok b)) =
      if b = 13 then RunOutcome.running t.carriage_return
      else if b = 10 then RunOutcome.running t.line_feed
      else
        match t.push_element (some b) with
        | Except.ok t1 => RunOutcome.running t1
        | Except.error e => RunOutcome.exitErr (RunError.grid e) := by
  by_cases h13 : b = 13
  · subst h13
    rfl
  · by_cases h10 : b = 10
    · subst h10
      rfl
    · rw [if_neg h13, if_neg h10]
      simp only [runStep]

/-- C6: after every operation sequence from the initial grid — hence after
each individual operation, every prefix being such a sequence — the row
count equals `height` and every row's length equals `width`. -/
theorem grid_shape_invariant (ops : List (Op Nat)) :
    ((Term.new Nat).steps ops).buffers.length = ((Term.new Nat).steps ops).height ∧
      ∀ row ∈ ((Term.new Nat).steps ops).buffers,
        row.length = ((Term.new Nat).steps ops).width :=
  ⟨(Term.wf_steps ops (Term.wf_new Nat)).1, (Term.wf_steps ops (Term.wf_new Nat)).2.1⟩

/-- C7: every state reachable from the initial grid by `push_element`,
`carriage_return` and `line_feed` keeps the cursor inside the grid:
`0 ≤ x < width` and `0 ≤ y < height` (the lower bounds are inherent to the
`Nat` coordinates, matching the unsigned `u32` of the code). -/
theorem cursor_bounds_invariant (ops : List (Op Nat)) :
    (0 ≤ ((Term.new Nat).steps ops).x ∧
        ((Term.new Nat).steps ops).x < ((Term.new Nat).steps ops).width) ∧
      0 ≤ ((Term.new Nat).steps ops).y ∧
        ((Term.new Nat).steps ops).y < ((Term.new Nat).steps ops).height :=
  ⟨⟨Nat.zero_le _, (Term.wf_steps ops (Term.wf_new Nat)).2.2.1⟩,
    Nat.zero_le _, (Term.wf_steps ops (Term.wf_new Nat)).2.2.2⟩

/-- C8: whenever the cursor is within the grid dimensions (`y` indexes an
existing row and `x` an existing cell of it), `push_element` returns
success — the `CantPushElement` branch is unreachable. -/
theorem push_element_no_oob (t : Term Nat) (c : Option Nat)
    (row : List (Option Nat)) (hrow : t.buffers[t.y]? = some row)
    (hx : t.x < row.length) :
    ∃ t1, t.push_element c = Except.ok t1 := by
  simp only [Term.push_element, hrow, if_pos hx]
  split
  · exact ⟨_, rfl⟩
  · exact ⟨_, rfl⟩

/-- Witness for C8 at a concrete input: the initial grid's cursor is in
bounds, and pushing a cell there succeeds. -/
theorem push_element_no_oob_witness :
    ∃ t1, (Term.new Nat).push_element (some 65) = Except.ok t1 :=
  push_element_no_oob (Term.new Nat) (some 65) (List.replicate 80 none) rfl
    (by decide)

/-- C9: the operation `carriage_return` resets `x` to 0 and changes nothing else — the
record-update equality pins `y`, `width`, `height` and every buffer cell
unchanged; consequently, on any invariant-satisfying grid wider than one
column, `carriage_return` followed by `push_element (some c)` overwrites
column 0 of the current row, leaves `x` at 1 and alters neither `y` nor
any other row. -/
theorem carriage_return_frame :
    (∀ (t : Term Nat), t.carriage_return = { t with x := 0 }) ∧
      ∀ (t : Term Nat) (c : Nat) (row : List (Option Nat)), t.Wf → 1 < t.width →
        t.buffers[t.y]? = some row →
        t.carriage_return.push_element (some c) =
          Except.ok { t with x := 1, buffers := t.buffers.set t.y (row.set 0 (some c)) } := by
  refine ⟨fun t => rfl, ?_⟩
  intro t c row hwf h1w hrow
  obtain ⟨h1, h2, h3, h4⟩ := hwf
  have hrlen : row.length = t.width := h2 _ (List.getElem?_mem hrow)
  simp only [Term.carriage_return, Term.push_element, hrow]
  rw [if_pos (show (0 : Nat) < row.length by omega)]
  rw [if_neg (show ¬ t.width ≤ 0 + 1 by omega)]

/-- Witness for C9 at a concrete input: on a 3×2 grid with cursor (2, 0),
`carriage_return` then `push 120` overwrites column 0 of row 0, leaving
the cursor at (1, 0). -/
theorem carriage_return_frame_witness :
    (Term.mk 3 2 2 0 [[some 97, some 98, some 99], [none, none, none]] :
        Term Nat).carriage_return.push_element (some 120) =
      Except.ok (Term.mk 3 2 1 0 [[some 120, some 98, some 99], [none, none, none]]) :=
  carriage_return_frame.2
    (Term.mk 3 2 2 0 [[some 97, some 98, some 99], [none, none, none]]) 120
    [some 97, some 98, some 99] (by decide) (by decide) rfl

/-- Unfolding `line_feeds` from the right. -/
theorem Term.line_feeds_succ_right {T : Type} (t : Term T) (n : Nat) :
    t.line_feeds (n + 1) = (t.line_feeds n).line_feed := by
  induction n generalizing t with
  | zero => rfl
  | succ n ih => exact ih t.line_feed

/-- As long as the cursor stays above the last row, `line_feeds` only
moves the cursor. -/
theorem Term.line_feeds_no_scroll {T : Type} :
    ∀ (n : Nat) (t : Term T), t.y + n < t.height →
      t.line_feeds n = { t with y := t.y + n } := by
  intro n
  induction n with
  | zero => intro t h; rfl
  | succ n ih =>
      intro t h
      show t.line_feed.line_feeds n = _
      rw [Term.line_feed_eq, if_neg (by omega)]
      rw [ih { t with y := t.y + 1 } (by show t.y + 1 + n < t.height; omega)]
      show ({ t with y := t.y + 1 + n } : Term T) = { t with y := t.y + (n + 1) }
      congr 1
      omega

/-- C5: from any invariant-satisfying state with `cursor.y = 0`, `height`
consecutive `line_feed` calls evict the original top row, append one blank
(all-unset) row at the bottom, keep exactly `height` rows of length
`width`, and leave `cursor.y = height - 1`. -/
theorem scroll_law (t : Term Nat) (hwf : t.Wf) (hy : t.y = 0) :
    t.line_feeds t.height =
        { t with
            y := t.height - 1
            buffers := t.buffers.tail ++ [List.replicate t.width (none : Option Nat)] } ∧
      (t.line_feeds t.height).buffers.length = t.height ∧
      ∀ row ∈ (t.line_feeds t.height).buffers, row.length = t.width := by
  obtain ⟨h1, h2, h3, h4⟩ := hwf
  obtain ⟨m, hm⟩ : ∃ m, t.height = m + 1 := ⟨t.height - 1, by omega⟩
  have heq : t.line_feeds t.height =
      { t with
          y := t.height - 1
          buffers := t.buffers.tail ++ [List.replicate t.width (none : Option Nat)] } := by
    rw [hm, Term.line_feeds_succ_right, Term.line_feeds_no_scroll m t (by omega),
      Term.line_feed_eq]
    rw [if_pos (show ({ t with y := t.y + m } : Term Nat).height ≤
        ({ t with y := t.y + m } : Term Nat).y + 1 by show t.height ≤ t.y + m + 1; omega)]
    simp [hm]
  refine ⟨heq, ?_, ?_⟩
  · rw [heq]
    show (t.buffers.tail ++ [List.replicate t.width (none : Option Nat)]).length = t.height
    simp only [List.length_append, List.length_tail, List.length_singleton, h1]
    omega
  · rw [heq]
    intro row hrow
    rcases List.mem_append.mp hrow with hmem | hmem
    · exact h2 _ (List.mem_of_mem_tail hmem)
    · rw [List.mem_singleton.mp hmem]
      exact List.length_replicate _ _

/-- Witness for C5 at a concrete input: a 1×2 grid with distinct rows;
two line feeds from y = 0 evict the top row `[some 7]`, keep `[some 8]`,
and append a blank row. -/
theorem scroll_law_witness :
    (Term.mk 1 2 0 0 [[some 7], [some 8]] : Term Nat).line_feeds 2 =
      Term.mk 1 2 0 1 [[some 8], [none]] :=
  (scroll_law (Term.mk 1 2 0 0 [[some 7], [some 8]]) (by decide) rfl).1

/-- Setting the cell one short of the end of a row fills its last slot. -/
theorem set_last_eq_take_append {α : Type} :
    ∀ (l : List α) (i : Nat) (a : α), i + 1 = l.length →
      l.set i a = l.take i ++ [a]
  | [], _, _, h => by simp at h
  | b :: l, 0, a, h => by
      have hl : l.length = 0 := by simp only [List.length_cons] at h; omega
      have hl2 : l = [] := List.eq_nil_of_length_eq_zero hl
      subst hl2
      rfl
  | b :: l, i + 1, a, h => by
      show b :: l.set i a = (b :: l.take i) ++ [a]
      rw [set_last_eq_take_append l i a (by simp at h; omega)]
      rfl

/-- Taking `i + 1` cells after setting index `i` keeps the old prefix and
ends with the new cell. -/
theorem take_set_succ {α : Type} :
    ∀ (l : List α) (i : Nat) (a : α), i < l.length →
      (l.set i a).take (i + 1) = l.take i ++ [a]
  | [], _, _, h => by simp at h
  | _ :: _, 0, _, _ => rfl
  | b :: l, i + 1, a, h => by
      show b :: (l.set i a).take (i + 1) = (b :: l.take i) ++ [a]
      rw [take_set_succ l i a (by simpa using h)]
      rfl

/-- Filling the remainder of the current row: when the pending cells
exactly reach `width`, every push succeeds, the row becomes its old prefix
followed by the new cells, and the last push wraps into a line feed. -/
theorem Term.pushList_fill {T : Type} :
    ∀ (cs : List T) (t : Term T) (row : List (Option T)), t.Wf →
      t.buffers[t.y]? = some row →
      t.x + cs.length = t.width →
      t.pushList cs = Except.ok (Term.line_feed
        { t with
            x := 0
            buffers := t.buffers.set t.y (row.take t.x ++ cs.map some) })
  | [], t, row, hwf, hrow, hlen => by
      exfalso
      obtain ⟨_, _, h3, _⟩ := hwf
      simp at hlen
      omega
  | c :: cs, t, row, hwf, hrow, hlen => by
      obtain ⟨h1, h2, h3, h4⟩ := hwf
      have hrlen : row.length = t.width := h2 _ (List.getElem?_mem hrow)
      show (match t.push_element (some c) with
            | Except.ok t1 => t1.pushList cs
            | Except.error e => Except.error e) = _
      cases cs with
      | nil =>
          have hwrap : t.width ≤ t.x + 1 := by simp at hlen; omega
          simp only [Term.push_element, hrow, if_pos (show t.x < row.length by omega),
            if_pos hwrap]
          show Except.ok _ = _
          rw [set_last_eq_take_append row t.x (some c) (by omega)]
          rfl
      | cons d ds =>
          have hnw : ¬ t.width ≤ t.x + 1 := by simp at hlen; omega
          simp only [Term.push_element, hrow, if_pos (show t.x < row.length by omega),
            if_neg hnw]
          rw [Term.pushList_fill (d :: ds)
            { t with buffers := t.buffers.set t.y (row.set t.x (some c)), x := t.x + 1 }
            (row.set t.x (some c))
            ⟨by simpa using h1,
              fun r hr => rows_width_set h2 (by simp [hrlen]) r hr,
              by show t.x + 1 < t.width; simp at hlen; omega,
              h4⟩
            (by show (t.buffers.set t.y (row.set t.x (some c)))[t.y]? = some _
                exact List.getElem?_set_eq_of_lt _ (by omega))
            (by show t.x + 1 + (d :: ds).length = t.width
                simp at hlen ⊢
                omega)]
          simp only [take_set_succ row t.x (some c) (by omega), List.set_set,
            List.map_cons, List.append_assoc, List.singleton_append]

/-- C4: from any invariant-satisfying state with cursor (0, y), pushing
`width` consecutive set cells fills the row with them (every written cell
set, none remaining unset) and wraps: the cursor lands at (0, y + 1) when
y < height - 1, and when y = height - 1 a scroll is performed — the buffer
rotates once after the row is written and the cursor stays at
(0, height - 1). -/
theorem wrap_law (t : Term Nat) (cs : List Nat) (hwf : t.Wf) (hx : t.x = 0)
    (hlen : cs.length = t.width) :
    t.pushList cs =
        Except.ok
          (if t.y + 1 < t.height then
            { t with
                x := 0
                y := t.y + 1
                buffers := t.buffers.set t.y (cs.map some) }
           else
            { t with
                x := 0
                y := t.height - 1
                buffers := (t.buffers.set t.y (cs.map some)).tail ++
                  [List.replicate t.width (none : Option Nat)] }) ∧
      ∀ o ∈ cs.map some, o ≠ (none : Option Nat) := by
  obtain ⟨h1, h2, h3, h4⟩ := hwf
  rcases hrow : t.buffers[t.y]? with _ | row
  · rw [List.getElem?_eq_none_iff] at hrow
    omega
  · refine ⟨?_, ?_⟩
    · rw [Term.pushList_fill cs t row ⟨h1, h2, h3, h4⟩ hrow (by omega), hx,
        Term.line_feed_eq]
      by_cases hscroll : t.y + 1 < t.height
      · have hc : ¬ t.height ≤ t.y + 1 := by omega
        simp [hc, hscroll]
      · have hc : t.height ≤ t.y + 1 := by omega
        simp [hc, hscroll]
    · intro o ho
      rcases List.mem_map.mp ho with ⟨a, _, rfl⟩
      simp

/-- Witness for C4 at the spec's 3×2 scenario: pushing `a`, `b`, `c` from
cursor (0, 0) fills row 0 and leaves the cursor at (0, 1). -/
theorem wrap_law_witness :
    (Term.mk 3 2 0 0 [[none, none, none], [none, none, none]] : Term Nat).pushList
        [97, 98, 99] =
      Except.ok (Term.mk 3 2 0 1 [[some 97, some 98, some 99], [none, none, none]]) :=
  (wrap_law (Term.mk 3 2 0 0 [[none, none, none], [none, none, none]]) [97, 98, 99]
    (by decide) rfl rfl).1

end Toyterm
